import Mathlib

/-!
Verification development for the scnlib scanning library
(src/include/scn/scn/types.h, src/include/scn/scan/scan.h,
src/include/scn/detail/result.h).

Input streams are modelled as `List Char`: `read_char` pops the head and
fails with the end-of-range sentinel on the empty list, `putback` pushes a
unit onto the front.  Machine integers of a C++ type `T` are modelled as
`Int` together with an explicit wrap to the value range of `T`
(`wrapInt sgn w`), applied exactly where the C++ code performs arithmetic
in `T`.  Fallible operations return `Except Err` paired with the stream
state after the call.
-/

namespace Scn

/-- Error kinds of the library (src/include/scn/detail/error.h is not under
src/; the kinds are those named by the spec §4.1 and used by the sources).
`end_of_range` is the end-of-input sentinel; the older header
`scn/scn/types.h` refers to it as `end_of_stream`.  `static_assert_failure`
is not a runtime error of the library: it models a program rejected at
compile time by a `static_assert` in the sources. -/
inductive Err where
  | invalid_format_string
  | invalid_scanned_value
  | value_out_of_range
  | end_of_range
  | unrecoverable_source_error
  | invalid_encoding
  | static_assert_failure
  deriving DecidableEq, Repr

/-- The NUL code unit: `std::vector<CharT> buf(n)` value-initializes its
elements, so unwritten buffer slots hold `CharT(0)`. -/
def zeroChar : Char := Char.ofNat 0

/-- Digit value of a code unit, 99 for a non-digit (models
`detail::char_to_int`, which is not under src/; digits `0-9`, then
letters, as the spec's base-2..36 integer grammar requires). -/
def digitValN (c : Char) : Nat :=
  if 48 ≤ c.toNat ∧ c.toNat ≤ 57 then c.toNat - 48
  else if 97 ≤ c.toNat ∧ c.toNat ≤ 122 then c.toNat - 87
  else if 65 ≤ c.toNat ∧ c.toNat ≤ 90 then c.toNat - 55
  else 99

/-- Static-profile digit classification for a given base (spec §4.4: the
static profile is deterministic ASCII; `detail::is_digit` itself is not
under src/). -/
def staticIsDigit (c : Char) (base : Int) : Bool :=
  (digitValN c : Int) < base

/-- Static-profile whitespace classification: the six ASCII whitespace
units (spec §4.4 static profile). -/
def staticIsSpace (c : Char) : Bool :=
  c = ' ' || c = '\t' || c = '\n' || c = Char.ofNat 11 || c = Char.ofNat 12 || c = '\r'

/-- Locale reference (spec §4.4): classification callbacks and the boolean
names.  The `Dyn` fields are the dynamic profile, consulted exactly when a
classification call is made with `localized = true`.  Modelled from the
spec: the locale provider is an out-of-scope collaborator and its header is
not under src/. -/
structure LocaleRef where
  is_space : Char → Bool
  thousands_separator : Char
  truename : List Char
  falsename : List Char
  isDigitDyn : Char → Int → Bool
  charToIntDyn : Char → Int → Int

/-- The default (static, ASCII) locale reference: classification is
locale-independent, the boolean names are `"true"`/`"false"`, the
thousands separator is `','` (spec §4.4 static profile). -/
def defaultLocale : LocaleRef where
  is_space := staticIsSpace
  thousands_separator := ','
  truename := ['t', 'r', 'u', 'e']
  falsename := ['f', 'a', 'l', 's', 'e']
  isDigitDyn := staticIsDigit
  charToIntDyn := fun c _ => (digitValN c : Int)

/-- Digit classification dispatch (models `detail::is_digit(loc, ch, base,
localized)`, not under src/): the dynamic profile is used exactly when
`localized` is set, per spec §4.4. -/
def isDigit (loc : LocaleRef) (c : Char) (base : Int) (localized : Bool) : Bool :=
  if localized then loc.isDigitDyn c base else staticIsDigit c base

/-- Digit-to-value dispatch (models `detail::char_to_int`, not under
src/), mirroring `isDigit`. -/
def charToInt (loc : LocaleRef) (c : Char) (base : Int) (localized : Bool) : Int :=
  if localized then loc.charToIntDyn c base else (digitValN c : Int)

/-- Wrap an integer into the value range of the modelled C++ type:
two's-complement wrap for a signed `T` of width `w`, reduction modulo
`2 ^ w` for an unsigned one.  Applied wherever the C++ code computes in
`T`. -/
def wrapInt (sgn : Bool) (w : Nat) (x : Int) : Int :=
  if sgn then (x + 2 ^ (w - 1)) % 2 ^ w - 2 ^ (w - 1) else x % 2 ^ w

/-- Value range of the modelled C++ integer type, as a decidable check. -/
def representable (sgn : Bool) (w : Nat) (n : Int) : Bool :=
  if sgn then decide (-(2 ^ (w - 1) : Int) ≤ n ∧ n < 2 ^ (w - 1))
  else decide ((0 : Int) ≤ n ∧ n < 2 ^ w)

/-- Little-endian decimal digits of `n`, via explicit fuel so the
definition is structural. -/
def decDigitsFuel : Nat → Nat → List Nat
  | 0, _ => []
  | fuel + 1, n => if n = 0 then [] else n % 10 :: decDigitsFuel fuel (n / 10)

/-- Little-endian decimal digits of `n` (`[]` for `0`). -/
def decDigits (n : Nat) : List Nat := decDigitsFuel n n

/-- The ASCII digit character for a digit value. -/
def digitChar (d : Nat) : Char := Char.ofNat (48 + d)

/-- Big-endian decimal digit values of a natural number (`[0]` for `0`). -/
def bigDigits (n : Nat) : List Nat :=
  if n = 0 then [0] else (decDigits n).reverse

/-- Decimal textual form of a natural number. -/
def natText (n : Nat) : List Char :=
  if n = 0 then [digitChar 0] else ((decDigits n).reverse).map digitChar

/-- Decimal textual form of an integer: an optional leading `'-'` followed
by the digits of the absolute value. -/
def intText (n : Int) : List Char :=
  if n < 0 then '-' :: natText n.natAbs else natText n.natAbs

/-- Buffer size driver of the integer scanner (models
`detail::max_digits<T>()`, which is not under src/).  Modelled from the
spec: the temporary digit buffer is sized to hold the longest textual form
of `T`, here one more than the decimal length of `2 ^ w`. -/
def maxDigits (w : Nat) : Nat := (decDigits (2 ^ w)).length + 1

/-- Parsed integer format specifier: the two data members `base` and
`localized` of the integral `basic_value_scanner` (types.h:277-278). -/
structure IntFmt where
  base : Int
  localized : Bool
  deriving DecidableEq, Repr

/-- The `parse` hook of the integral scanner (types.h:162-190).  `fmt` is
the format string positioned at the opening `'{'`; `parse` advances past it
and inspects the next unit: `'}'` selects base 10 and sets
`localized = true`; `d`/`x`/`b`/`o` select a base and leave `localized`
false (its initializer, types.h:278); anything else is an invalid format
string. -/
def intParse (fmt : List Char) : Except Err IntFmt :=
  match fmt with
  | _ :: ch :: _ =>
    if ch = '}' then .ok ⟨10, true⟩
    else if ch = 'd' then .ok ⟨10, false⟩
    else if ch = 'x' then .ok ⟨16, false⟩
    else if ch = 'b' then .ok ⟨2, false⟩
    else if ch = 'o' then .ok ⟨8, false⟩
    else .error .invalid_format_string
  | _ => .error .invalid_format_string

/-- The buffering read loop of the integral scanner (types.h:199-220) over
`bufsize` zero-initialized slots: a read failure at end of input breaks
(remaining slots stay `CharT(0)`); a whitespace unit breaks after being
consumed; a thousands-separator unit is consumed and skipped, leaving its
slot at `CharT(0)` (the loop variable still advances); any other unit is
stored.  Returns the buffer contents and the remaining stream. -/
def readLoop (loc : LocaleRef) : Nat → List Char → List Char × List Char
  | 0, s => ([], s)
  | n + 1, [] => (List.replicate (n + 1) zeroChar, [])
  | n + 1, ch :: rest =>
    if loc.is_space ch then (List.replicate (n + 1) zeroChar, rest)
    else if ch = loc.thousands_separator then
      let r := readLoop loc n rest
      (zeroChar :: r.1, r.2)
    else
      let r := readLoop loc n rest
      (ch :: r.1, r.2)

/-- The digit-accumulation loop of the integral scanner (types.h:252-260):
starting from `tmp`, for each leading digit unit of the buffer compute
`tmp * base - digit` in the arithmetic of `T`, stopping at the first
non-digit. -/
def digitLoop (sgn : Bool) (w : Nat) (loc : LocaleRef) (fmt : IntFmt) :
    Int → List Char → Int
  | tmp, [] => tmp
  | tmp, ch :: rest =>
    if isDigit loc ch fmt.base fmt.localized then
      digitLoop sgn w loc fmt
        (wrapInt sgn w (wrapInt sgn w (tmp * fmt.base) -
          charToInt loc ch fmt.base fmt.localized)) rest
    else tmp

/-- The `scan` hook of the integral scanner (types.h:192-275): buffer the
input with `readLoop` over `max_digits + 1` slots, run the sign lambda on
the first buffered unit (types.h:224-245), accumulate the remaining digits
negated (types.h:252-260), and negate at the end when a positive sign was
seen (types.h:262-271).  Returns the scanned value (or error) and the
stream as left by the read loop. -/
def intScan (sgn : Bool) (w : Nat) (loc : LocaleRef) (fmt : IntFmt)
    (s : List Char) : Except Err Int × List Char :=
  let r := readLoop loc (maxDigits w + 1) s
  match r.1 with
  | [] => (.error .invalid_scanned_value, r.2)
  | c :: restBuf =>
    if c = '-' then
      if sgn then
        -- negative sign: accumulate and do not negate at the end
        (.ok (digitLoop sgn w loc fmt 0 restBuf), r.2)
      else (.error .invalid_scanned_value, r.2)
    else if c = '+' then
      (.ok (wrapInt sgn w (-(digitLoop sgn w loc fmt 0 restBuf))), r.2)
    else if isDigit loc c fmt.base fmt.localized then
      let tmp0 := wrapInt sgn w (wrapInt sgn w ((0 : Int) * fmt.base) -
        charToInt loc c fmt.base fmt.localized)
      (.ok (wrapInt sgn w (-(digitLoop sgn w loc fmt tmp0 restBuf))), r.2)
    else (.error .invalid_scanned_value, r.2)

/-- The boolean-name loop of the bool scanner (types.h:121-149): read up to
`max_len` units into a zero-initialized buffer (here the accumulated list
`buf`); after each read, succeed with `false`/`true` as soon as the units
read so far are a prefix of the locale's `falsename`/`truename`
(`std::equal` compares the first `it + 1 - begin` units only); a read
failure at end of input breaks, and falling out of the loop yields
`invalid_scanned_value`.  Units read here are never put back. -/
def boolNameLoop (loc : LocaleRef) (maxLen : Nat) :
    List Char → List Char → Except Err Bool × List Char
  | _, [] =>
    (.error .invalid_scanned_value, [])
  | buf, ch :: rest =>
    if buf.length = maxLen then (.error .invalid_scanned_value, ch :: rest)
    else
      let buf' := buf ++ [ch]
      if buf'.isPrefixOf loc.falsename then (.ok false, rest)
      else if buf'.isPrefixOf loc.truename then (.ok true, rest)
      else boolNameLoop loc maxLen buf' rest

/-- The `scan` hook of the bool scanner (types.h:94-152): read one unit;
`'0'`/`'1'` yield `false`/`true`; otherwise the unit is put back and the
name loop runs over `max(truename.size(), falsename.size())` units (an
empty pair of names is `invalid_scanned_value` at once). -/
def boolScan (loc : LocaleRef) (s : List Char) : Except Err Bool × List Char :=
  match s with
  | [] => (.error .end_of_range, [])
  | ch :: rest =>
    if ch = '0' then (.ok false, rest)
    else if ch = '1' then (.ok true, rest)
    else
      let maxLen := max loc.truename.length loc.falsename.length
      if maxLen < 1 then (.error .invalid_scanned_value, ch :: rest)
      else boolNameLoop loc maxLen [] (ch :: rest)

/-- The source's buffer-restoring loop `for (i = buf.begin(); i != it - 1;
++i) putback(*i)` (types.h:72-77, 297-302): it puts back all buffered
units except the last one (an off-by-one), pushing them onto the stream in
iteration order; when nothing was buffered the bound `it - 1` lies before
`begin` and the loop is degenerate (in C++ the iterator arithmetic is
invalid), modelled as restoring nothing. -/
def pbRestore (buf : List Char) (s : List Char) : List Char :=
  (buf.take (buf.length - 1)).foldl (fun st ch => ch :: st) s

/-- The reading loop of the floating-point scanner (types.h:293-325) over
`slots` remaining buffer positions, with `point` recording whether a
decimal point was already stored and `acc` the units stored so far: a read
failure runs the restoring loop and propagates the read error (there is no
end-of-input break); a second `'.'` or any unit that is neither a digit nor
`'.'` is put back and the loop breaks; digits and a first `'.'` are
stored. -/
def floatLoop (loc : LocaleRef) : Nat → Bool → List Char → List Char →
    Except Err (List Char) × List Char
  | 0, _, acc, s => (.ok acc, s)
  | _ + 1, _, acc, [] => (.error .end_of_range, pbRestore acc [])
  | n + 1, point, acc, ch :: rest =>
    if ch = '.' then
      if point then (.ok acc, ch :: rest)
      else floatLoop loc n true (acc ++ ['.']) rest
    else if isDigit loc ch 10 false then
      floatLoop loc n point (acc ++ [ch]) rest
    else (.ok acc, ch :: rest)

/-- Modelled from the spec: the locale's numeric string-to-float shim
(`detail::str_to_floating`, not under src/), restricted to the buffer
contents the reading loop can produce (decimal digits with at most one
point).  Returns how many units the conversion consumes: everything when
at least one digit is present, nothing otherwise (a bare `"."` parses no
number). -/
def strToFloatConsumed (acc : List Char) : Nat :=
  if acc.any (fun c => staticIsDigit c 10) then acc.length else 0

/-- Modelled from the spec: the numeric value produced by the
string-to-float shim on a digit run with at most one point, as a rational:
integer part plus fractional digits scaled down. -/
def strToFloatVal (acc : List Char) : Rat :=
  let intPart := (acc.takeWhile (fun c => c ≠ '.')).foldl
    (fun a c => 10 * a + (digitValN c : Rat)) 0
  let fracDigits := (acc.dropWhile (fun c => c ≠ '.')).drop 1
  intPart + (fracDigits.foldl (fun a c => 10 * a + (digitValN c : Rat)) 0) /
    (10 : Rat) ^ fracDigits.length

/-- The `scan` hook of the floating-point scanner (types.h:287-340): run
the reading loop over a 64-slot zero-initialized buffer; if the first
buffered unit is still `CharT(0)` (nothing was stored), fail with
`invalid_scanned_value`; otherwise convert with the locale shim and fail
with `invalid_scanned_value` unless the conversion consumed the entire
stored text. -/
def floatScan (loc : LocaleRef) (s : List Char) : Except Err Rat × List Char :=
  match floatLoop loc 64 false [] s with
  | (.error e, s') => (.error e, s')
  | (.ok acc, s') =>
    if acc.headD zeroChar = zeroChar then (.error .invalid_scanned_value, s')
    else if strToFloatConsumed acc ≠ acc.length then
      (.error .invalid_scanned_value, s')
    else (.ok (strToFloatVal acc), s')

/-- The reading loop of the span scanner (types.h:67-84) over `slots`
remaining positions of a zero-initialized buffer of the span's size: a
read failure runs the restoring loop and propagates the error (no
end-of-input break); a whitespace unit is consumed and breaks; other units
are stored.  After the loop the whole buffer (stored units plus remaining
zero slots) is copied into the span. -/
def spanLoop (loc : LocaleRef) : Nat → List Char → List Char →
    Except Err (List Char) × List Char
  | 0, acc, s => (.ok acc, s)
  | _ + 1, acc, [] => (.error .end_of_range, pbRestore acc [])
  | n + 1, acc, ch :: rest =>
    if loc.is_space ch then (.ok (acc ++ List.replicate (n + 1) zeroChar), rest)
    else spanLoop loc n (acc ++ [ch]) rest

/-- The `scan` hook of the span scanner (types.h:57-89): a span of size
zero returns success immediately, before any stream access; otherwise the
reading loop fills a buffer of the span's size and its contents are copied
into the span (returned here as the scanned unit list). -/
def spanScan (loc : LocaleRef) (n : Nat) (s : List Char) :
    Except Err (List Char) × List Char :=
  if n = 0 then (.ok [], s)
  else spanLoop loc n [] s

/-- One dispatcher visit of a default `"{}"` slot for an `int` argument
(32-bit signed), as performed by `visit(ctx, pctx, args)` in `scan_list`
and `scan_list_until` (scan.h:860, 935).  Modelled from the spec
(§4.5-§4.6, the visitor lives in vscan.h/reader headers not under src/):
leading whitespace is skipped, reaching the end of the range during that
skip yields the `end_of_range` terminator, and the typed scanner is the
integral `scan` hook of types.h with the parse result of `"{}"` (base 10,
`localized = true`, types.h:167-170). -/
def visitInt (s : List Char) : Except Err Int × List Char :=
  let t := s.dropWhile defaultLocale.is_space
  match t with
  | [] => (.error .end_of_range, [])
  | _ :: _ => intScan true 32 defaultLocale ⟨10, true⟩ t

/-- The character value `0` used as the "no separator" default of
`scan_list` (`detail::zero_value`, scan.h:775-782). -/
def noSep : Char := Char.ofNat 0

/-- The loop of `scan_list` (scan.h:854-889), with explicit fuel (the
wrapper passes one more than the input length, which bounds the iteration
count since every iteration that loops again consumes at least one unit).
State: the container contents `c` (push_back appends) and the stream `s`.
Stops without error when the container is full, when a visit reports
`end_of_range`, when the separator read hits end of range, or when the
unit read in place of the separator differs from it (that unit has been
consumed); any other visit error is returned. -/
def scanListLoop (sep : Char) (maxSize : Nat) :
    Nat → List Int → List Char → List Int × Option Err × List Char
  | 0, c, s => (c, none, s)
  | fuel + 1, c, s =>
    if c.length = maxSize then (c, none, s)
    else
      match visitInt s with
      | (.error e, s') =>
        if e = .end_of_range then (c, none, s') else (c, some e, s')
      | (.ok v, s₁) =>
        let c' := c ++ [v]
        if sep = noSep then scanListLoop sep maxSize fuel c' s₁
        else
          match s₁ with
          | [] => (c', none, [])
          | ch :: rest =>
            if ch = sep then scanListLoop sep maxSize fuel c' rest
            else (c', none, rest)

/-- `scan_list(range, container, separator)` (scan.h:833-892) for an `int`
container, starting from contents `c`. -/
def scanList (sep : Char) (maxSize : Nat) (c : List Int) (s : List Char) :
    List Int × Option Err × List Char :=
  scanListLoop sep maxSize (s.length + 1) c s

/-- The inner separator/terminator loop of `scan_list_until`
(scan.h:947-981): peek one unit without advancing (`read_code_unit(range,
false)`); end of range or the `until` unit stop scanning (`false` below);
whitespace is consumed and the loop repeats; with no separator configured
any other unit breaks back into the outer loop (`true`), and with one
configured the unit must be the separator, at most once.  Returns whether
the outer loop keeps scanning, and the stream. -/
def untilInner (until_ sep : Char) : Bool → List Char → Bool × List Char
  | _, [] => (false, [])
  | sepFound, ch :: rest =>
    if ch = until_ then (false, ch :: rest)
    else if defaultLocale.is_space ch then untilInner until_ sep sepFound rest
    else if sep ≠ noSep then
      if ch ≠ sep || sepFound then (true, ch :: rest)
      else untilInner until_ sep true rest
    else (true, ch :: rest)

/-- The loop of `scan_list_until` (scan.h:928-982), with fuel as in
`scanListLoop`. -/
def scanListUntilLoop (until_ sep : Char) (maxSize : Nat) :
    Nat → List Int → List Char → List Int × Option Err × List Char
  | 0, c, s => (c, none, s)
  | fuel + 1, c, s =>
    if c.length = maxSize then (c, none, s)
    else
      match visitInt s with
      | (.error e, s') =>
        if e = .end_of_range then (c, none, s') else (c, some e, s')
      | (.ok v, s₁) =>
        let c' := c ++ [v]
        match untilInner until_ sep false s₁ with
        | (false, s₂) => (c', none, s₂)
        | (true, s₂) => scanListUntilLoop until_ sep maxSize fuel c' s₂

/-- `scan_list_until(range, container, until, separator)` (scan.h:908-985)
for an `int` container. -/
def scanListUntil (until_ sep : Char) (maxSize : Nat) (c : List Int)
    (s : List Char) : List Int × Option Err × List Char :=
  scanListUntilLoop until_ sep maxSize (s.length + 1) c s

/-- Modelled from the spec: `read_until_space_zero_copy(range, pred,
keep_final = true)` on a contiguous range (reader/common.h is not under
src/; spec §4.2): returns the sub-view up to and including the first unit
satisfying `pred` (the whole input when no unit does), with the range
advanced past the returned units. -/
def readUntilZC (pred : Char → Bool) : List Char → List Char × List Char
  | [] => ([], [])
  | ch :: rest =>
    if pred ch then ([ch], rest)
    else
      let r := readUntilZC pred rest
      (ch :: r.1, r.2)

/-- `detail::getline_impl` for a string output on a contiguous range
(scan.h:410-445) with a single-unit delimiter (`until_pred`,
scan.h:375-408): take the zero-copy read; when it returned units, drop the
final one exactly when it is the delimiter, and store the rest.  An empty
zero-copy result happens on an empty range, where the unit-wise fallback
read fails with `end_of_range`. -/
def getlineModel (s : List Char) (d : Char) : Except Err (List Char) × List Char :=
  let r := readUntilZC (fun c => c = d) s
  if r.1 = [] then (.error .end_of_range, r.2)
  else
    let content := if r.1.getLast? = some d then r.1.dropLast else r.1
    (.ok content, r.2)

/-- `scan(range, "")` with `numArgs` out-arguments, through
`detail::scan_boilerplate` (scan.h:41-57): the `static_assert` at
scan.h:45-46 rejects the call at compile time unless at least one argument
is passed (modelled as `static_assert_failure`); with an argument count of
at least one, an empty format string has no specifiers and the dispatcher
consumes nothing and succeeds (modelled from the spec, §4.6, as vscan.h is
not under src/). -/
def scanEmptyFormat (numArgs : Nat) (s : List Char) :
    Except Err Unit × List Char :=
  if numArgs = 0 then (.error .static_assert_failure, s)
  else (.ok (), s)

/-- Witness relation for the values produced by a `scan_list` run:
`ScanChain sep s vs s'` holds when, starting from stream `s`, each value
of `vs` in order was scanned by a dispatcher visit from the current
stream position, with at most the configured separator unit consumed in
between, ending at stream position `s'`.  It witnesses that the container
receives the values in input order. -/
inductive ScanChain (sep : Char) : List Char → List Int → List Char → Prop where
  | nil (s : List Char) : ScanChain sep s [] s
  | consDirect {s s₁ t : List Char} {v : Int} {vs : List Int} :
      visitInt s = (.ok v, s₁) → ScanChain sep s₁ vs t → ScanChain sep s (v :: vs) t
  | consSep {s s₁ t : List Char} {v : Int} {vs : List Int} :
      visitInt s = (.ok v, sep :: s₁) → ScanChain sep s₁ vs t → ScanChain sep s (v :: vs) t

end Scn
namespace Scn

/-! ### Decimal digit arithmetic -/

theorem decDigitsFuel_stable (n : Nat) : ∀ fuel, n ≤ fuel →
    decDigitsFuel fuel n = decDigits n := by
  induction n using Nat.strong_induction_on with
  | _ n ih =>
    intro fuel hf
    match fuel, n with
    | 0, 0 => rfl
    | 0, m + 1 => omega
    | f + 1, 0 => rfl
    | f + 1, m + 1 =>
      have hdiv : (m + 1) / 10 < m + 1 := Nat.div_lt_self (Nat.succ_pos m) (by omega)
      rw [decDigitsFuel, if_neg (Nat.succ_ne_zero m)]
      rw [decDigits, decDigitsFuel, if_neg (Nat.succ_ne_zero m)]
      rw [ih ((m + 1) / 10) hdiv f (by omega), ih ((m + 1) / 10) hdiv m (by omega)]

theorem decDigits_cons (n : Nat) (h : n ≠ 0) :
    decDigits n = n % 10 :: decDigits (n / 10) := by
  rw [decDigits]
  match n, h with
  | m + 1, _ =>
    rw [decDigitsFuel, if_neg (Nat.succ_ne_zero m)]
    rw [decDigitsFuel_stable ((m + 1) / 10) m
      (by have := Nat.div_lt_self (Nat.succ_pos m) (show 1 < 10 by omega); omega)]

theorem decDigits_lt (n : Nat) : ∀ d ∈ decDigits n, d < 10 := by
  induction n using Nat.strong_induction_on with
  | _ n ih =>
    intro d hd
    by_cases h : n = 0
    · subst h; simp [decDigits, decDigitsFuel] at hd
    · rw [decDigits_cons n h] at hd
      rcases List.mem_cons.mp hd with hd | hd
      · subst hd; omega
      · exact ih (n / 10) (Nat.div_lt_self (Nat.pos_of_ne_zero h) (by omega)) d hd

theorem decDigits_lt_pow (n : Nat) : n < 10 ^ (decDigits n).length := by
  induction n using Nat.strong_induction_on with
  | _ n ih =>
    by_cases h : n = 0
    · subst h; simp [decDigits, decDigitsFuel]
    · rw [decDigits_cons n h]
      have hdiv : n / 10 < n := Nat.div_lt_self (Nat.pos_of_ne_zero h) (by omega)
      have := ih (n / 10) hdiv
      simp only [List.length_cons, pow_succ]
      calc n < 10 * (n / 10) + 10 := by omega
        _ ≤ 10 * (10 ^ (decDigits (n / 10)).length) := by omega
        _ = 10 ^ (decDigits (n / 10)).length * 10 := by ring

theorem decDigits_len_le (n k : Nat) (h : n < 10 ^ k) : (decDigits n).length ≤ k := by
  induction n using Nat.strong_induction_on generalizing k with
  | _ n ih =>
    by_cases h0 : n = 0
    · subst h0; simp [decDigits, decDigitsFuel]
    · rw [decDigits_cons n h0]
      have hk : k ≠ 0 := by
        intro hk0; subst hk0; simp at h; omega
      have hdiv : n / 10 < n := Nat.div_lt_self (Nat.pos_of_ne_zero h0) (by omega)
      have hlt : n / 10 < 10 ^ (k - 1) := by
        rw [Nat.div_lt_iff_lt_mul (by omega)]
        calc n < 10 ^ k := h
          _ = 10 ^ (k - 1) * 10 := by
            rw [← pow_succ]
            congr 1
            omega
      have := ih (n / 10) hdiv (k - 1) hlt
      simp only [List.length_cons]
      omega

theorem ofLE_decDigits (n : Nat) :
    (decDigits n).foldr (fun d r => d + 10 * r) 0 = n := by
  induction n using Nat.strong_induction_on with
  | _ n ih =>
    by_cases h : n = 0
    · subst h; simp [decDigits, decDigitsFuel]
    · rw [decDigits_cons n h]
      simp only [List.foldr_cons]
      rw [ih (n / 10) (Nat.div_lt_self (Nat.pos_of_ne_zero h) (by omega))]
      omega

theorem foldl_reverse_val (l : List Nat) : ∀ a : Nat,
    (l.reverse).foldl (fun x d => 10 * x + d) a =
      a * 10 ^ l.length + l.foldr (fun d r => d + 10 * r) 0 := by
  induction l with
  | nil => intro a; simp
  | cons d t ih =>
    intro a
    simp only [List.reverse_cons, List.foldl_append, List.foldl_cons, List.foldl_nil,
      List.foldr_cons, List.length_cons]
    rw [ih a]
    ring

theorem valBE_decDigits (n : Nat) :
    ((decDigits n).reverse).foldl (fun x d => 10 * x + d) 0 = n := by
  rw [foldl_reverse_val, ofLE_decDigits]
  simp

theorem valFrom_ge (D : List Nat) : ∀ p : Nat, p ≤ D.foldl (fun a d => 10 * a + d) p := by
  induction D with
  | nil => intro p; simp
  | cons d t ih =>
    intro p
    simp only [List.foldl_cons]
    calc p ≤ 10 * p + d := by omega
      _ ≤ t.foldl (fun a d => 10 * a + d) (10 * p + d) := ih _

/-! ### Facts about the involved code units and the textual form -/

theorem digitChar_val (d : Nat) (h : d < 10) : digitValN (digitChar d) = d := by
  interval_cases d <;> decide

theorem digitChar_isDigit (d : Nat) (h : d < 10) :
    staticIsDigit (digitChar d) 10 = true := by
  interval_cases d <;> decide

theorem digitChar_clean (d : Nat) (h : d < 10) :
    defaultLocale.is_space (digitChar d) = false ∧ digitChar d ≠ ',' ∧
    digitChar d ≠ '-' ∧ digitChar d ≠ '+' := by
  interval_cases d <;> exact ⟨rfl, by decide, by decide, by decide⟩

theorem replicate_headD (k : Nat) :
    (List.replicate k zeroChar).headD zeroChar = zeroChar := by
  cases k <;> simp [List.replicate]

theorem zeroChar_not_digit : staticIsDigit zeroChar 10 = false := by decide

theorem natText_eq (n : Nat) : natText n = (bigDigits n).map digitChar := by
  by_cases h : n = 0
  · subst h; rfl
  · simp [natText, bigDigits, h]

theorem bigDigits_lt (n : Nat) : ∀ d ∈ bigDigits n, d < 10 := by
  intro d hd
  by_cases h : n = 0
  · subst h; simp [bigDigits] at hd; omega
  · simp only [bigDigits, h, if_false, List.mem_reverse] at hd
    exact decDigits_lt n d hd

theorem bigDigits_val (n : Nat) :
    (bigDigits n).foldl (fun a d => 10 * a + d) 0 = n := by
  by_cases h : n = 0
  · subst h; rfl
  · simp only [bigDigits, h, if_false]
    exact valBE_decDigits n

theorem bigDigits_ne_nil (n : Nat) : bigDigits n ≠ [] := by
  by_cases h : n = 0
  · subst h; simp [bigDigits]
  · simp only [bigDigits, h, if_false]
    intro hc
    have h2 : decDigits n = [] := by simpa using congrArg List.reverse hc
    rw [decDigits_cons n h] at h2
    cases h2

theorem bigDigits_len_le (n w : Nat) (h : n ≤ 2 ^ w) :
    (bigDigits n).length ≤ (decDigits (2 ^ w)).length := by
  have hpow : (0 : Nat) < 2 ^ w := pow_pos (by omega) w
  have hL1 : 1 ≤ (decDigits (2 ^ w)).length := by
    rw [decDigits_cons (2 ^ w) (by omega)]
    simp
  by_cases h0 : n = 0
  · subst h0; simpa [bigDigits] using hL1
  · have h1 : n < 10 ^ (decDigits (2 ^ w)).length :=
      lt_of_le_of_lt h (decDigits_lt_pow (2 ^ w))
    have h2 := decDigits_len_le n _ h1
    simpa [bigDigits, h0] using h2

/-! ### Wrap arithmetic -/

theorem two_pow_split (w : Nat) (hw : 1 ≤ w) : (2 : Int) ^ w = 2 ^ (w - 1) * 2 := by
  rw [← pow_succ]
  congr 1
  omega

theorem wrapInt_id_signed (w : Nat) (x : Int) (hw : 1 ≤ w)
    (h1 : -(2 ^ (w - 1) : Int) ≤ x) (h2 : x < 2 ^ (w - 1)) :
    wrapInt true w x = x := by
  rw [wrapInt, if_pos rfl]
  have hsplit := two_pow_split w hw
  have hpos : (0 : Int) ≤ x + 2 ^ (w - 1) := by omega
  have hlt : x + 2 ^ (w - 1) < 2 ^ w := by omega
  rw [Int.emod_eq_of_lt hpos hlt]
  ring

theorem wrapInt_unsigned (w : Nat) (x : Int) : wrapInt false w x = x % 2 ^ w := by
  rw [wrapInt, if_neg (by simp)]

theorem isDigit_default (c : Char) (b : Int) :
    isDigit defaultLocale c b true = staticIsDigit c b := rfl

theorem charToInt_default (c : Char) (b : Int) :
    charToInt defaultLocale c b true = (digitValN c : Int) := rfl

theorem emod_mul_sub_emod (m a d : Int) :
    (a % m * 10 % m - d) % m = (a * 10 - d) % m := by
  have h1 : Int.ModEq m (a % m) a := Int.emod_emod_of_dvd a (dvd_refl m)
  have h2 : Int.ModEq m (a % m * 10 % m) (a * 10) :=
    (Int.emod_emod_of_dvd (a % m * 10) (dvd_refl m)).trans (h1.mul_right 10)
  exact h2.sub_right d

theorem emod_neg_emod (m a : Int) : (-(a % m)) % m = (-a) % m :=
  (Int.ModEq.neg (Int.emod_emod_of_dvd a (dvd_refl m)) : Int.ModEq m _ _)

/-! ### The digit-accumulation loop of the integral scanner -/

theorem digitLoop_signed (w : Nat) (hw : 1 ≤ w) : ∀ (D : List Nat) (p : Nat) (tail : List Char),
    (∀ d ∈ D, d < 10) →
    ((D.foldl (fun a d => 10 * a + d) p : Nat) : Int) ≤ 2 ^ (w - 1) →
    staticIsDigit (tail.headD zeroChar) 10 = false →
    digitLoop true w defaultLocale ⟨10, true⟩ (-(p : Int)) (D.map digitChar ++ tail) =
      -((D.foldl (fun a d => 10 * a + d) p : Nat) : Int) := by
  intro D
  induction D with
  | nil =>
    intro p tail _ _ htail
    match tail with
    | [] => simp [digitLoop]
    | c :: t =>
      simp only [List.headD_cons] at htail
      simp [digitLoop, isDigit_default, htail]
  | cons d D' ih =>
    intro p tail hD hbound htail
    have hd : d < 10 := hD d (List.mem_cons_self d D')
    simp only [List.foldl_cons] at hbound ⊢
    have hstep := valFrom_ge D' (10 * p + d)
    have hpow : (0 : Int) < 2 ^ (w - 1) := by positivity
    have hv : ((10 * p + d : Nat) : Int) ≤ 2 ^ (w - 1) := by
      have hcast : ((10 * p + d : Nat) : Int) ≤
          ((D'.foldl (fun a d => 10 * a + d) (10 * p + d) : Nat) : Int) := by
        exact_mod_cast hstep
      omega
    simp only [List.map_cons, List.cons_append, digitLoop, isDigit_default,
      digitChar_isDigit d hd, if_true, charToInt_default, digitChar_val d hd]
    have hb1 : wrapInt true w (-(p : Int) * 10) = -((10 * p : Nat) : Int) := by
      rw [wrapInt_id_signed w _ hw]
      · push_cast; ring
      · push_cast at hv ⊢; omega
      · push_cast at hv ⊢; omega
    have hb2 : wrapInt true w (-((10 * p : Nat) : Int) - (d : Int)) =
        -((10 * p + d : Nat) : Int) := by
      rw [wrapInt_id_signed w _ hw]
      · push_cast; ring
      · push_cast at hv ⊢; omega
      · push_cast at hv ⊢; omega
    rw [hb1, hb2]
    exact ih (10 * p + d) tail (fun x hx => hD x (List.mem_cons_of_mem d hx)) hbound htail

theorem digitLoop_unsigned (w : Nat) : ∀ (D : List Nat) (p : Nat) (tail : List Char),
    (∀ d ∈ D, d < 10) →
    staticIsDigit (tail.headD zeroChar) 10 = false →
    digitLoop false w defaultLocale ⟨10, true⟩ ((-(p : Int)) % 2 ^ w)
      (D.map digitChar ++ tail) =
      (-((D.foldl (fun a d => 10 * a + d) p : Nat) : Int)) % 2 ^ w := by
  intro D
  induction D with
  | nil =>
    intro p tail _ htail
    match tail with
    | [] => simp [digitLoop]
    | c :: t =>
      simp only [List.headD_cons] at htail
      simp [digitLoop, isDigit_default, htail]
  | cons d D' ih =>
    intro p tail hD htail
    have hd : d < 10 := hD d (List.mem_cons_self d D')
    simp only [List.foldl_cons]
    simp only [List.map_cons, List.cons_append, digitLoop, isDigit_default,
      digitChar_isDigit d hd, if_true, charToInt_default, digitChar_val d hd]
    have hb : wrapInt false w (wrapInt false w ((-(p : Int)) % 2 ^ w * 10) - (d : Int)) =
        (-((10 * p + d : Nat) : Int)) % 2 ^ w := by
      rw [wrapInt_unsigned, wrapInt_unsigned]
      rw [emod_mul_sub_emod]
      congr 1
      push_cast
      ring
    rw [hb]
    exact ih (10 * p + d) tail (fun x hx => hD x (List.mem_cons_of_mem d hx)) htail

/-! ### Reductions of the integral scan hook -/

theorem readLoop_clean : ∀ (s : List Char) (B : Nat),
    (∀ c ∈ s, defaultLocale.is_space c = false ∧ c ≠ ',') → s.length ≤ B →
    readLoop defaultLocale B s = (s ++ List.replicate (B - s.length) zeroChar, []) := by
  intro s
  induction s with
  | nil =>
    intro B _ _
    match B with
    | 0 => rfl
    | n + 1 => rfl
  | cons ch rest ih =>
    intro B hc hlen
    match B with
    | 0 => simp at hlen
    | n + 1 =>
      obtain ⟨hsp, hcm⟩ := hc ch (List.mem_cons_self ch rest)
      have hsep : ch ≠ defaultLocale.thousands_separator := by
        simpa [defaultLocale] using hcm
      rw [readLoop, hsp]
      simp only [Bool.false_eq_true, if_false, hsep, if_neg hsep]
      rw [ih n (fun c hm => hc c (List.mem_cons_of_mem ch hm)) (by simpa using hlen)]
      simp

theorem intScan_minus (w : Nat) (s restBuf rest : List Char)
    (h : readLoop defaultLocale (maxDigits w + 1) s = ('-' :: restBuf, rest)) :
    intScan true w defaultLocale ⟨10, true⟩ s =
      (.ok (digitLoop true w defaultLocale ⟨10, true⟩ 0 restBuf), rest) := by
  rw [intScan, h]
  simp

theorem intScan_digit_lead (sgn : Bool) (w : Nat) (c : Char) (s restBuf rest : List Char)
    (h : readLoop defaultLocale (maxDigits w + 1) s = (c :: restBuf, rest))
    (h1 : c ≠ '-') (h2 : c ≠ '+') (h3 : staticIsDigit c 10 = true) :
    intScan sgn w defaultLocale ⟨10, true⟩ s =
      (.ok (wrapInt sgn w (-(digitLoop sgn w defaultLocale ⟨10, true⟩
        (wrapInt sgn w (wrapInt sgn w ((0 : Int) * 10) - (digitValN c : Int))) restBuf))),
       rest) := by
  rw [intScan, h]
  simp [h1, h2, isDigit_default, h3, charToInt_default]

theorem mapped_clean (d₁ : Nat) (D' : List Nat) (hd₁ : d₁ < 10) (hD' : ∀ d ∈ D', d < 10) :
    ∀ c ∈ digitChar d₁ :: List.map digitChar D',
    defaultLocale.is_space c = false ∧ c ≠ ',' := by
  intro c hc
  rcases List.mem_cons.mp hc with rfl | hc
  · exact ⟨(digitChar_clean d₁ hd₁).1, (digitChar_clean d₁ hd₁).2.1⟩
  · obtain ⟨d, hd, rfl⟩ := List.mem_map.mp hc
    exact ⟨(digitChar_clean d (hD' d hd)).1, (digitChar_clean d (hD' d hd)).2.1⟩


/-! ### Claim theorems -/

/-- Claim C1: integer round-trip.  For every modelled integer type
(signedness `sgn`, width `w`) and every representable value `n`, the
integral scan hook of types.h applied to the decimal textual form of `n`,
with the parse result of the default `"{}"` spec, succeeds, consumes the
whole input, and produces exactly `n` — including negative values and the
most negative value of a signed type. -/
theorem intScan_decimal_roundtrip (sgn : Bool) (w : Nat) (n : Int) (hw : 1 ≤ w)
    (h : representable sgn w n = true) :
    intScan sgn w defaultLocale ⟨10, true⟩ (intText n) = (.ok n, []) := by
  have hpow : (0 : Int) < 2 ^ (w - 1) := by positivity
  have hpoww : (0 : Int) < 2 ^ w := by positivity
  have hmono : (2 : Nat) ^ (w - 1) ≤ 2 ^ w := Nat.pow_le_pow_right (by omega) (by omega)
  have hmd : maxDigits w = (decDigits (2 ^ w)).length + 1 := rfl
  set v := n.natAbs with hv
  have hvle : v ≤ 2 ^ w := by
    cases sgn with
    | true =>
      have hr : -(2 ^ (w - 1) : Int) ≤ n ∧ n < 2 ^ (w - 1) :=
        of_decide_eq_true (by simpa [representable] using h)
      have h1 : ((2 ^ (w - 1) : Nat) : Int) = (2 : Int) ^ (w - 1) := by push_cast; rfl
      have h2 : (v : Int) ≤ ((2 ^ (w - 1) : Nat) : Int) := by rw [h1]; omega
      have h3 : v ≤ 2 ^ (w - 1) := by exact_mod_cast h2
      omega
    | false =>
      have hr : (0 : Int) ≤ n ∧ n < 2 ^ w :=
        of_decide_eq_true (by simpa [representable] using h)
      have h1 : ((2 ^ w : Nat) : Int) = (2 : Int) ^ w := by push_cast; rfl
      have h2 : (v : Int) ≤ ((2 ^ w : Nat) : Int) := by rw [h1]; omega
      exact_mod_cast h2
  obtain ⟨d₁, D', hBD⟩ := List.exists_cons_of_ne_nil (bigDigits_ne_nil v)
  have hd₁lt : d₁ < 10 := bigDigits_lt v d₁ (hBD ▸ List.mem_cons_self d₁ D')
  have hD'lt : ∀ d ∈ D', d < 10 := fun d hd =>
    bigDigits_lt v d (hBD ▸ List.mem_cons_of_mem d₁ hd)
  have hfold : D'.foldl (fun a d => 10 * a + d) d₁ = v := by
    have hval := bigDigits_val v
    rw [hBD] at hval
    simpa using hval
  have hd₁v : d₁ ≤ v := hfold ▸ valFrom_ge D' d₁
  have hBL : D'.length + 1 ≤ (decDigits (2 ^ w)).length := by
    have h1 := bigDigits_len_le v w hvle
    rw [hBD] at h1
    simpa using h1
  cases sgn with
  | true =>
    have hr : -(2 ^ (w - 1) : Int) ≤ n ∧ n < 2 ^ (w - 1) :=
      of_decide_eq_true (by simpa [representable] using h)
    have hvbound : (v : Int) ≤ 2 ^ (w - 1) := by
      have h1 : ((2 ^ (w - 1) : Nat) : Int) = (2 : Int) ^ (w - 1) := by push_cast; rfl
      omega
    by_cases hneg : n < 0
    · -- negative value: the sign lambda sees the minus, no final negation
      have htext : intText n = '-' :: digitChar d₁ :: List.map digitChar D' := by
        rw [intText, if_pos hneg, natText_eq, hBD, List.map_cons]
      have hclean : ∀ c ∈ intText n, defaultLocale.is_space c = false ∧ c ≠ ',' := by
        rw [htext]
        intro c hc
        rcases List.mem_cons.mp hc with rfl | hc
        · exact ⟨rfl, by decide⟩
        · exact mapped_clean d₁ D' hd₁lt hD'lt c hc
      have hlen : (intText n).length ≤ maxDigits w + 1 := by
        rw [htext]
        simp only [List.length_cons, List.length_map]
        omega
      have hread := readLoop_clean (intText n) (maxDigits w + 1) hclean hlen
      rw [htext] at hread
      rw [List.cons_append] at hread
      rw [htext]
      rw [intScan_minus w _ _ _ hread]
      have hdl := digitLoop_signed w hw (d₁ :: D') 0
        (List.replicate (maxDigits w + 1 -
          ('-' :: digitChar d₁ :: List.map digitChar D').length) zeroChar)
        (hBD ▸ bigDigits_lt v)
        (by simpa [List.foldl_cons, hfold] using hvbound)
        (by rw [replicate_headD]; exact zeroChar_not_digit)
      simp only [Nat.cast_zero, neg_zero, List.map_cons] at hdl
      rw [hdl]
      simp only [List.foldl_cons, Nat.mul_zero, Nat.zero_add, hfold]
      have hvn : -((v : Nat) : Int) = n := by omega
      rw [hvn]
    · -- nonnegative value: the sign lambda consumes the first digit
      push_neg at hneg
      have hvint : ((v : Nat) : Int) = n := by omega
      have htext : intText n = digitChar d₁ :: List.map digitChar D' := by
        rw [intText, if_neg (by omega), natText_eq, hBD, List.map_cons]
      have hclean : ∀ c ∈ intText n, defaultLocale.is_space c = false ∧ c ≠ ',' := by
        rw [htext]
        exact mapped_clean d₁ D' hd₁lt hD'lt
      have hlen : (intText n).length ≤ maxDigits w + 1 := by
        rw [htext]
        simp only [List.length_cons, List.length_map]
        omega
      have hread := readLoop_clean (intText n) (maxDigits w + 1) hclean hlen
      rw [htext] at hread
      rw [List.cons_append] at hread
      rw [htext]
      rw [intScan_digit_lead true w (digitChar d₁) _ _ _ hread
        (digitChar_clean d₁ hd₁lt).2.2.1 (digitChar_clean d₁ hd₁lt).2.2.2
        (digitChar_isDigit d₁ hd₁lt)]
      rw [digitChar_val d₁ hd₁lt]
      have hd₁bound : ((d₁ : Nat) : Int) < 2 ^ (w - 1) := by
        have hc : ((d₁ : Nat) : Int) ≤ ((v : Nat) : Int) := by exact_mod_cast hd₁v
        omega
      have hb0 : wrapInt true w ((0 : Int) * 10) = 0 := by
        rw [zero_mul, wrapInt_id_signed w 0 hw (by omega) (by omega)]
      rw [hb0, zero_sub]
      have hbneg : wrapInt true w (-((d₁ : Nat) : Int)) = -((d₁ : Nat) : Int) := by
        rw [wrapInt_id_signed w _ hw (by omega) (by omega)]
      rw [hbneg]
      have hdl := digitLoop_signed w hw D' d₁
        (List.replicate (maxDigits w + 1 -
          (digitChar d₁ :: List.map digitChar D').length) zeroChar)
        hD'lt
        (by rw [hfold]; omega)
        (by rw [replicate_headD]; exact zeroChar_not_digit)
      rw [hdl, hfold, neg_neg]
      rw [wrapInt_id_signed w _ hw (by omega) (by omega), hvint]
  | false =>
    have hr : (0 : Int) ≤ n ∧ n < 2 ^ w :=
      of_decide_eq_true (by simpa [representable] using h)
    have hvint : ((v : Nat) : Int) = n := by omega
    have htext : intText n = digitChar d₁ :: List.map digitChar D' := by
      rw [intText, if_neg (by omega), natText_eq, hBD, List.map_cons]
    have hclean : ∀ c ∈ intText n, defaultLocale.is_space c = false ∧ c ≠ ',' := by
      rw [htext]
      exact mapped_clean d₁ D' hd₁lt hD'lt
    have hlen : (intText n).length ≤ maxDigits w + 1 := by
      rw [htext]
      simp only [List.length_cons, List.length_map]
      omega
    have hread := readLoop_clean (intText n) (maxDigits w + 1) hclean hlen
    rw [htext] at hread
    rw [List.cons_append] at hread
    rw [htext]
    rw [intScan_digit_lead false w (digitChar d₁) _ _ _ hread
      (digitChar_clean d₁ hd₁lt).2.2.1 (digitChar_clean d₁ hd₁lt).2.2.2
      (digitChar_isDigit d₁ hd₁lt)]
    rw [digitChar_val d₁ hd₁lt]
    have hb0 : wrapInt false w ((0 : Int) * 10) = 0 := by
      rw [zero_mul, wrapInt_unsigned, Int.zero_emod]
    rw [hb0, zero_sub]
    simp only [wrapInt_unsigned]
    have hdl := digitLoop_unsigned w D' d₁
      (List.replicate (maxDigits w + 1 -
        (digitChar d₁ :: List.map digitChar D').length) zeroChar)
      hD'lt
      (by rw [replicate_headD]; exact zeroChar_not_digit)
    rw [hdl, hfold]
    rw [emod_neg_emod, neg_neg]
    rw [Int.emod_eq_of_lt (by omega) (by omega), hvint]

/-- Witness for C1: the 8-bit signed instance at the most negative value,
`-128`, round-trips through the scanner. -/
theorem intScan_decimal_roundtrip_witness :
    1 ≤ 8 ∧ representable true 8 (-128) = true ∧
    intScan true 8 defaultLocale ⟨10, true⟩ (intText (-128)) = (.ok (-128), []) :=
  ⟨by omega, by decide, intScan_decimal_roundtrip true 8 (-128) (by omega) (by decide)⟩


/-- Claim C2: the default `"{}"` integer specifier engages the dynamic
locale.  The `parse` hook maps `"{}"` to `localized = true` (types.h:169),
although no `l` flag was given, so the digit loop of the scan hook
classifies units through the dynamic locale profile: the identical
default-format scan of `"123"` succeeds under the ASCII profile but fails
under a process locale whose digit classification differs, contradicting
the claim (and scan.h:158-160's own documentation) that default scans
never consult the dynamic locale. -/
theorem intParse_default_consults_dynamic_locale :
    intParse ('{' :: '}' :: []) = .ok ⟨10, true⟩ ∧
    (intScan true 32 defaultLocale ⟨10, true⟩ ('1' :: '2' :: '3' :: [])).1 = .ok 123 ∧
    (intScan true 32 { defaultLocale with isDigitDyn := fun _ _ => false } ⟨10, true⟩
      ('1' :: '2' :: '3' :: [])).1 = .error .invalid_scanned_value :=
  ⟨rfl, rfl, rfl⟩

/-- Claim C3: for the 8-bit signed type, scanning the decimal text of
`min(T) = -128` succeeds with `-128`, but scanning the text of
`min(T) - 1 = -129` does not fail with `value_out_of_range`: the scan hook
has no overflow detection at all, the accumulation wraps, and the call
succeeds with the wrapped value `127`. -/
theorem intScan_min_minus_one_wraps :
    intScan true 8 defaultLocale ⟨10, true⟩ (intText (-128)) = (.ok (-128), []) ∧
    intScan true 8 defaultLocale ⟨10, true⟩ (intText (-129)) = (.ok 127, []) :=
  ⟨rfl, rfl⟩

/-- Counterexample to claim C4: the float scan hook does not consume a
leading sign — on `"-1.5"` the `'-'` is put back and the scan fails with
`invalid_scanned_value` — and on empty input the error is the end-of-range
sentinel, not `invalid_scanned_value`. -/
theorem floatScan_sign_counterexample :
    floatScan defaultLocale ('-' :: '1' :: '.' :: '5' :: []) =
      (.error .invalid_scanned_value, '-' :: '1' :: '.' :: '5' :: []) ∧
    floatScan defaultLocale [] = (.error .end_of_range, []) :=
  ⟨rfl, rfl⟩

/-- Claim C4 as amended: the float scan hook consumes only a run of ASCII
digits containing at most one decimal point; it accepts neither a sign nor
an exponent: whenever the first input unit is neither a digit nor `'.'`,
the unit is put back and the scan fails with `invalid_scanned_value`,
consuming nothing. -/
theorem floatScan_rejects_nondigit_lead (c : Char) (s : List Char)
    (h1 : staticIsDigit c 10 = false) (h2 : c ≠ '.') :
    floatScan defaultLocale (c :: s) = (.error .invalid_scanned_value, c :: s) := by
  simp [floatScan, floatLoop, isDigit, h1, h2, zeroChar]

/-- Witness for the amended C4: an exponent letter in leading position is
rejected, not consumed. -/
theorem floatScan_rejects_nondigit_lead_witness :
    staticIsDigit 'e' 10 = false ∧ 'e' ≠ '.' ∧
    floatScan defaultLocale ('e' :: '1' :: '0' :: []) =
      (.error .invalid_scanned_value, 'e' :: '1' :: '0' :: []) :=
  ⟨rfl, by decide, floatScan_rejects_nondigit_lead 'e' ('1' :: '0' :: []) rfl (by decide)⟩

theorem boolNameLoop_head_mismatch (b : Char) (hb1 : b ≠ 'f') (hb2 : b ≠ 't') :
    ∀ (s bs : List Char), (b :: bs).length ≤ 5 →
    boolNameLoop defaultLocale 5 (b :: bs) s =
      (.error .invalid_scanned_value, s.drop (5 - (b :: bs).length)) := by
  intro s
  induction s with
  | nil =>
    intro bs _
    simp [boolNameLoop]
  | cons ch rest ih =>
    intro bs hlen
    by_cases h5 : (b :: bs).length = 5
    · simp [boolNameLoop, h5]
    · have hlt : (b :: bs).length < 5 := lt_of_le_of_ne hlen h5
      have hpf : ((b :: bs) ++ [ch]).isPrefixOf defaultLocale.falsename = false := by
        simp [defaultLocale, List.isPrefixOf, hb1]
      have hpt : ((b :: bs) ++ [ch]).isPrefixOf defaultLocale.truename = false := by
        simp [defaultLocale, List.isPrefixOf, hb2]
      have hrec := ih (bs ++ [ch]) (by simp at hlt ⊢; omega)
      have hdrop : List.drop (5 - (b :: bs).length) (ch :: rest) =
          List.drop (5 - (b :: (bs ++ [ch])).length) rest := by
        simp only [List.length_cons, List.length_append, List.length_singleton]
        have h1 : 5 - (bs.length + 1) = (5 - (bs.length + 1 + 1)) + 1 := by
          simp at hlt; omega
        rw [h1, List.drop_succ_cons]; simp
      rw [boolNameLoop, if_neg h5]
      simp only [hpf, hpt, Bool.false_eq_true, if_false]
      rw [hdrop]
      exact hrec

/-- Counterexample to claim C5: the bool scan hook does not accept only
the ASCII digits `'0'`/`'1'` — any input starting with `'t'` yields `true`
after consuming a single unit (here `"troll"`), via the one-unit prefix
comparison against the locale's `truename` — and on failure the consumed
units are not put back: on `"2x"` both units end up consumed. -/
theorem boolScan_counterexample :
    boolScan defaultLocale ('t' :: 'r' :: 'o' :: 'l' :: 'l' :: []) =
      (.ok true, ['r', 'o', 'l', 'l']) ∧
    boolScan defaultLocale ('2' :: 'x' :: []) = (.error .invalid_scanned_value, []) :=
  ⟨rfl, rfl⟩

/-- Claim C5 as amended: without an `l` flag (the bool scanner has no flag
handling at all), the scan succeeds exactly when the next unit is `'0'`
(false), `'1'` (true), or the first unit of the locale's `falsename`
(`'f'`, false) or `truename` (`'t'`, true), consuming one unit; for any
other nonempty input it fails with `invalid_scanned_value`, and the units
read during the name attempt (up to the longest name length past the
first) remain consumed rather than being put back. -/
theorem boolScan_characterization (c : Char) (s : List Char) :
    boolScan defaultLocale (c :: s) =
      if c = '0' then (.ok false, s)
      else if c = '1' then (.ok true, s)
      else if c = 'f' then (.ok false, s)
      else if c = 't' then (.ok true, s)
      else (.error .invalid_scanned_value, s.drop 4) := by
  by_cases h0 : c = '0'
  · simp [boolScan, h0]
  by_cases h1 : c = '1'
  · simp [boolScan, h0, h1]
  rw [boolScan]
  simp only [h0, h1, if_false]
  have hml : max (defaultLocale.truename).length (defaultLocale.falsename).length = 5 := by
    decide
  rw [hml]
  simp only [show ¬ (5 < 1) by omega, if_false]
  by_cases hf : c = 'f'
  · subst hf
    simp [boolNameLoop, defaultLocale, List.isPrefixOf]
  by_cases ht : c = 't'
  · subst ht
    simp [boolNameLoop, defaultLocale, List.isPrefixOf]
  · rw [boolNameLoop]
    simp only [List.length_nil, show (0 : Nat) ≠ 5 by omega, if_false]
    have hpf : (([] : List Char) ++ [c]).isPrefixOf defaultLocale.falsename = false := by
      simp [defaultLocale, List.isPrefixOf, hf]
    have hpt : (([] : List Char) ++ [c]).isPrefixOf defaultLocale.truename = false := by
      simp [defaultLocale, List.isPrefixOf, ht]
    simp only [hpf, hpt, Bool.false_eq_true, if_false, List.nil_append]
    rw [show [c] = c :: ([] : List Char) from rfl]
    rw [boolNameLoop_head_mismatch c hf ht s [] (by simp)]
    simp [defaultLocale, List.cons_prefix_cons, hf, ht]

theorem scanListLoop_props (sep : Char) (maxSize : Nat) :
    ∀ (fuel : Nat) (c : List Int) (s : List Char),
    (∃ vs s', ScanChain sep s vs s' ∧ (scanListLoop sep maxSize fuel c s).1 = c ++ vs ∧
      ((scanListLoop sep maxSize fuel c s).2.1 = none ∨
        ∃ e s'', (scanListLoop sep maxSize fuel c s).2.1 = some e ∧
          e ≠ Err.end_of_range ∧ visitInt s' = (.error e, s'') ∧
          (scanListLoop sep maxSize fuel c s).2.2 = s'')) ∧
    (c.length = maxSize → scanListLoop sep maxSize fuel c s = (c, none, s)) := by
  intro fuel
  induction fuel with
  | zero =>
    intro c s
    exact ⟨⟨[], s, ScanChain.nil s, by simp [scanListLoop], Or.inl rfl⟩, fun _ => rfl⟩
  | succ fuel ih =>
    intro c s
    by_cases hm : c.length = maxSize
    · refine ⟨⟨[], s, ScanChain.nil s, ?_, Or.inl ?_⟩, fun _ => ?_⟩ <;>
        simp [scanListLoop, hm]
    · rcases hv : visitInt s with ⟨e | v, s₁⟩
      · by_cases he : e = Err.end_of_range
        · subst he
          have hred : scanListLoop sep maxSize (fuel + 1) c s = (c, none, s₁) := by
            simp [scanListLoop, hm, hv]
          rw [hred]
          exact ⟨⟨[], s, ScanChain.nil s, by simp, Or.inl rfl⟩, fun h => absurd h hm⟩
        · have hred : scanListLoop sep maxSize (fuel + 1) c s = (c, some e, s₁) := by
            simp [scanListLoop, hm, hv, he]
          rw [hred]
          exact ⟨⟨[], s, ScanChain.nil s, by simp,
            Or.inr ⟨e, s₁, rfl, he, hv, rfl⟩⟩, fun h => absurd h hm⟩
      · by_cases hsep : sep = noSep
        · subst hsep
          have hred : scanListLoop noSep maxSize (fuel + 1) c s =
              scanListLoop noSep maxSize fuel (c ++ [v]) s₁ := by
            simp [scanListLoop, hm, hv]
          obtain ⟨⟨vs', s', hchain, hcont, herr⟩, _⟩ := ih (c ++ [v]) s₁
          rw [hred]
          exact ⟨⟨v :: vs', s', ScanChain.consDirect hv hchain,
            by simpa using hcont, herr⟩, fun h => absurd h hm⟩
        · cases s₁ with
          | nil =>
            have hred : scanListLoop sep maxSize (fuel + 1) c s = (c ++ [v], none, []) := by
              simp [scanListLoop, hm, hv, hsep]
            rw [hred]
            exact ⟨⟨[v], [], ScanChain.consDirect hv (ScanChain.nil []), rfl, Or.inl rfl⟩,
              fun h => absurd h hm⟩
          | cons ch rest =>
            by_cases hch : ch = sep
            · rw [hch] at hv
              have hred : scanListLoop sep maxSize (fuel + 1) c s =
                  scanListLoop sep maxSize fuel (c ++ [v]) rest := by
                simp [scanListLoop, hm, hv, hsep]
              obtain ⟨⟨vs', s', hchain, hcont, herr⟩, _⟩ := ih (c ++ [v]) rest
              rw [hred]
              exact ⟨⟨v :: vs', s', ScanChain.consSep hv hchain,
                by simpa using hcont, herr⟩, fun h => absurd h hm⟩
            · have hred : scanListLoop sep maxSize (fuel + 1) c s =
                  (c ++ [v], none, rest) := by
                simp [scanListLoop, hm, hv, hsep, hch]
              rw [hred]
              exact ⟨⟨[v], ch :: rest,
                ScanChain.consDirect hv (ScanChain.nil (ch :: rest)), rfl, Or.inl rfl⟩,
                fun h => absurd h hm⟩

/-- Claim C6: `scan_list` stops without error.  For every separator,
container bound, initial container contents and input, the conjunction
states that each of the three stop conditions of scan.h:854-889 yields a
successful (`none`-error) result with the values scanned so far appended
to the container in input order, and that nothing else can produce an
error at a stop:
1. any returned error is a non-`end_of_range` failure of an element visit
   at a position reachable by the value chain (`ScanChain`), with the
   leftover being that visit's stream — so the end-of-range, full-container
   and unexpected-character stops can never return an error, and on every
   path the container equals the initial one extended in input order;
2. a container already at `max_size()` returns success at once, untouched,
   consuming nothing;
3. a visit reporting `end_of_range` (end of input reached) stops with
   success and the container unchanged by that step;
4. with a separator configured, end of range where the separator was
   expected stops with success, keeping the value just pushed;
5. a non-separator unit read where the separator was expected (the
   "unexpected character, assuming end" break, scan.h:884-887) stops with
   success, keeping the values pushed so far, that unit consumed. -/
theorem scanList_soft_stop (sep : Char) (maxSize : Nat) (c : List Int) (s : List Char) :
    (∃ vs s', ScanChain sep s vs s' ∧ (scanList sep maxSize c s).1 = c ++ vs ∧
      ((scanList sep maxSize c s).2.1 = none ∨
        ∃ e s'', (scanList sep maxSize c s).2.1 = some e ∧
          e ≠ Err.end_of_range ∧ visitInt s' = (.error e, s'') ∧
          (scanList sep maxSize c s).2.2 = s'')) ∧
    (c.length = maxSize → scanList sep maxSize c s = (c, none, s)) ∧
    (c.length ≠ maxSize → ∀ s', visitInt s = (.error .end_of_range, s') →
      scanList sep maxSize c s = (c, none, s')) ∧
    (c.length ≠ maxSize → sep ≠ noSep → ∀ v, visitInt s = (.ok v, []) →
      scanList sep maxSize c s = (c ++ [v], none, [])) ∧
    (c.length ≠ maxSize → sep ≠ noSep → ∀ v ch rest, visitInt s = (.ok v, ch :: rest) →
      ch ≠ sep → scanList sep maxSize c s = (c ++ [v], none, rest)) := by
  obtain ⟨h1, h2⟩ := scanListLoop_props sep maxSize (s.length + 1) c s
  refine ⟨h1, h2, ?_, ?_, ?_⟩
  · intro hm s' hv
    rw [scanList]
    simp [scanListLoop, hm, hv]
  · intro hm hsep v hv
    rw [scanList]
    simp [scanListLoop, hm, hv, hsep]
  · intro hm hsep v ch rest hv hch
    rw [scanList]
    simp [scanListLoop, hm, hv, hsep, hch]

/-- Witness for C6, exercising the unexpected-character stop: with
separator `','`, scanning `"1 2"` pushes `1`, then reads `'2'` where the
separator was expected and stops with a successful result. -/
theorem scanList_soft_stop_witness :
    scanList ',' 10 [] ('1' :: ' ' :: '2' :: []) = ((1 : Int) :: [], none, []) :=
  (scanList_soft_stop ',' 10 [] ('1' :: ' ' :: '2' :: [])).2.2.2.2
    (by decide) (by decide) 1 '2' [] rfl (by decide)

/-- Claim C7 is contradicted by the code: in
`scan_list_until("123 456\n789", vec, '\n')` the integral scan hook
consumes the `'\n'` after `456` while buffering (whitespace break,
types.h:213-215), so the peek for the `until` unit (scan.h:948) sees `'7'`
and scanning continues: the call succeeds with `[123, 456, 789]` and an
empty leftover, not `[123, 456]` with leftover `"789"` as the claim and
the function's own documented example (scan.h:901-906) state. -/
theorem scanListUntil_misses_terminator :
    scanListUntil '\n' noSep 100 []
      ('1' :: '2' :: '3' :: ' ' :: '4' :: '5' :: '6' :: '\n' :: '7' :: '8' :: '9' :: []) =
      (123 :: 456 :: 789 :: [], none, []) := rfl

theorem readUntilZC_of_mem (d : Char) :
    ∀ s : List Char, d ∈ s →
    readUntilZC (fun c => c = d) s =
      (s.takeWhile (fun c => c ≠ d) ++ [d], (s.dropWhile (fun c => c ≠ d)).tail) := by
  intro s
  induction s with
  | nil => intro h; cases h
  | cons c s' ih =>
    intro h
    by_cases hc : c = d
    · subst hc
      simp [readUntilZC, List.takeWhile, List.dropWhile]
    · have hm : d ∈ s' := by
        cases h with
        | head => exact absurd rfl hc
        | tail _ h' => exact h'
      simp only [readUntilZC, hc, if_false, List.takeWhile, List.dropWhile]
      rw [ih hm]
      simp [hc]

/-- Claim C8: `getline` delimiter handling.  Whenever the input contains
the delimiter, the output string receives exactly the units before its
first occurrence, the delimiter itself is not stored, and the leftover
range begins just past the delimiter. -/
theorem getline_stores_before_delim (s : List Char) (d : Char) (h : d ∈ s) :
    getlineModel s d =
      (.ok (s.takeWhile (fun c => c ≠ d)), (s.dropWhile (fun c => c ≠ d)).tail) := by
  rw [getlineModel, readUntilZC_of_mem d s h]
  simp [List.getLast?_concat, List.dropLast_concat]

/-- Witness for C8: the spec's scenario — `getline` on `"hello\nworld"`
with delimiter `'\n'` stores `"hello"` and leaves `"world"`. -/
theorem getline_stores_before_delim_witness :
    '\n' ∈ ('h' :: 'e' :: 'l' :: 'l' :: 'o' :: '\n' :: 'w' :: 'o' :: 'r' :: 'l' :: 'd' :: []) ∧
    getlineModel ('h' :: 'e' :: 'l' :: 'l' :: 'o' :: '\n' :: 'w' :: 'o' :: 'r' :: 'l' :: 'd' :: []) '\n' =
      (.ok (('h' :: 'e' :: 'l' :: 'l' :: 'o' :: '\n' :: 'w' :: 'o' :: 'r' :: 'l' :: 'd' :: []).takeWhile (fun c => c ≠ '\n')),
       ((('h' :: 'e' :: 'l' :: 'l' :: 'o' :: '\n' :: 'w' :: 'o' :: 'r' :: 'l' :: 'd' :: []).dropWhile (fun c => c ≠ '\n')).tail)) :=
  ⟨by decide, getline_stores_before_delim _ '\n' (by decide)⟩

/-- Counterexample to claim C9: `scan(r', "")` with no arguments is not a
successful no-op — the `static_assert` in `scan_boilerplate`
(scan.h:45-46) rejects the zero-argument call outright, here at the
concrete leftover `"x"`. -/
theorem scanEmptyFormat_counterexample :
    scanEmptyFormat 0 ('x' :: []) = (.error .static_assert_failure, 'x' :: []) ∧
    (scanEmptyFormat 0 ('x' :: [])).1 ≠ .ok () :=
  ⟨rfl, fun h => Except.noConfusion h⟩

/-- Claim C9 as amended: the chaining call `scan(r', "")` cannot be made —
`scan` statically requires at least one argument, so the zero-argument
empty-format call is rejected (at compile time in C++, modelled as
`static_assert_failure`) for every leftover range, which is left
untouched. -/
theorem scanEmptyFormat_zero_args_rejected (s : List Char) :
    scanEmptyFormat 0 s = (.error .static_assert_failure, s) := rfl

/-- Claim C10: scanning into a span of size zero is a successful no-op —
for every input stream, including the empty one, the span scan hook
returns success immediately, writes nothing, consumes no units and leaves
the cursor unchanged. -/
theorem spanScan_zero_noop (s : List Char) :
    spanScan defaultLocale 0 s = (.ok [], s) := rfl

end Scn
